import Mathlib

/-!
# Verification of the nextava-widget core pipeline

Shallow embedding of `src/nextava-widget.js`: the CSV tokenizer
(`parseCSV`), the freshness cache (`getData`), the record resolver
(`findClinic`), and the relative-time formatter (`timeAgo`), together
with theorems settling the specification claims about them.

Strings are modelled as Lean `String` (a list of characters); the
source iterates over the text one character at a time, which the
embedding mirrors by recursion on `String.data`.
-/

namespace NextavaWidget

/-! ## String primitives

`String.prototype.trim` and `String.prototype.toLowerCase` are
embedded at the character-list level (the core library versions are
not kernel-reducible).  JS `trim` removes leading and trailing
whitespace; `toLowerCase` lowercases each character (ASCII suffices
for the data handled here).
-/

def trimChars (l : List Char) : List Char :=
  ((l.dropWhile Char.isWhitespace).reverse.dropWhile Char.isWhitespace).reverse

/-- `s.trim()` -/
def jsTrim (s : String) : String := ⟨trimChars s.data⟩

/-- `s.toLowerCase()` -/
def jsToLower (s : String) : String := ⟨s.data.map Char.toLower⟩

/-! ## CSV tokenizer

Embedding of `parseCSV` (src/nextava-widget.js lines 31-73).  The JS
loop walks the text with an index `i`, mutable state `currentField`,
`currentLine`, `inQuotes`, and an accumulator `lines`; the `i++` inside
the quote and CRLF branches consumes one extra character.  Here the
remaining text is a `List Char` and the mutable state is threaded as
arguments; consuming the extra character is dropping one more list
element.
-/

def parseCSVAux : List Char → Bool → String → List String → List (List String) →
    List (List String)
  | [], _, field, line, lines =>
    -- lines 67-70: push last field and line if exists
    if field ≠ "" ∨ line ≠ [] then lines ++ [line ++ [field]] else lines
  | '"' :: '"' :: rest, true, field, line, lines =>
    -- lines 42-44: escaped quote inside a quoted field; skip the second quote
    parseCSVAux rest true (field.push '"') line lines
  | '"' :: rest, inQuotes, field, line, lines =>
    -- line 46: toggle the quote state
    parseCSVAux rest (!inQuotes) field line lines
  | '\r' :: '\n' :: rest, false, field, line, lines =>
    -- lines 51-60: CRLF outside quotes is one boundary; skip the LF
    if field ≠ "" ∨ line ≠ [] then
      parseCSVAux rest false "" [] (lines ++ [line ++ [field]])
    else parseCSVAux rest false "" [] lines
  | '\r' :: rest, false, field, line, lines =>
    -- lines 51-60: bare CR outside quotes is a boundary
    if field ≠ "" ∨ line ≠ [] then
      parseCSVAux rest false "" [] (lines ++ [line ++ [field]])
    else parseCSVAux rest false "" [] lines
  | '\n' :: rest, false, field, line, lines =>
    -- lines 51-60: LF outside quotes is a boundary
    if field ≠ "" ∨ line ≠ [] then
      parseCSVAux rest false "" [] (lines ++ [line ++ [field]])
    else parseCSVAux rest false "" [] lines
  | ',' :: rest, false, field, line, lines =>
    -- lines 48-50: field separator outside quotes
    parseCSVAux rest false "" (line ++ [field]) lines
  | c :: rest, inQuotes, field, line, lines =>
    -- lines 61-63: any other character (or separator/terminator inside quotes)
    parseCSVAux rest inQuotes (field.push c) line lines

def parseCSV (text : String) : List (List String) :=
  parseCSVAux text.data false "" [] []

/-! ## Freshness cache

Embedding of `getData` (src/nextava-widget.js lines 76-114).  The
external collaborators are parameters:

* the persistent store read `localStorage.getItem` followed by
  `JSON.parse` and destructuring is summarised by `StoreRead`:
  `absent` covers a missing (or falsy empty-string) blob; `malformed`
  a blob on which `JSON.parse` throws; `notObject` a blob parsing to
  `null`, on which the destructuring `const { data, timestamp } = ...`
  throws; `envelope` a parsed object whose `data` / `timestamp`
  properties may each be missing (`Option`);
* `now` is `Date.now()`;
* `fetchResult` is the network call: `.error` when the fetch rejects
  or the response is not ok (both reach `getData`'s `.catch(reject)`),
  `.ok csvText` on success;
* `storeWriteOk` tells whether `localStorage.setItem` succeeds; the
  source wraps it in try/catch, so it only affects whether the cache
  was written, never the resolved value.

A JS exception thrown synchronously inside the `new Promise` executor
rejects the promise, so the `malformed` / `notObject` cases produce
`.error` outcomes.
-/

structure Envelope where
  data : Option (List (List String))
  timestamp : Option Int
deriving DecidableEq, Repr

inductive StoreRead where
  | absent
  | malformed
  | notObject
  | envelope (e : Envelope)
deriving DecidableEq, Repr

inductive JsError where
  | jsonSyntaxError
  | destructureTypeError
  | fetchFailed
deriving DecidableEq, Repr

/-- The settled state of the promise returned by `getData`. -/
inductive CacheOutcome where
  | resolved (data : Option (List (List String))) (timestamp : Int)
  | rejected (e : JsError)
deriving DecidableEq, Repr

structure GetDataResult where
  outcome : CacheOutcome
  didFetch : Bool
  cacheWritten : Bool
deriving DecidableEq, Repr

/-- CONFIG.cacheDuration (line 8): 5 minutes in milliseconds. -/
def cacheDuration : Int := 5 * 60 * 1000

def getData (store : StoreRead) (now : Int) (fetchResult : Except Unit String)
    (storeWriteOk : Bool) : GetDataResult :=
  -- lines 90-112: the fetch/tokenize/store/resolve path
  let fetchPath : GetDataResult :=
    match fetchResult with
    | .error _ => ⟨.rejected .fetchFailed, true, false⟩
    | .ok csvText => ⟨.resolved (some (parseCSV csvText)) now, true, storeWriteOk⟩
  match store with
  | .absent => fetchPath
  | .malformed => ⟨.rejected .jsonSyntaxError, false, false⟩
  | .notObject => ⟨.rejected .destructureTypeError, false, false⟩
  | .envelope e =>
    match e.timestamp with
    | some ts =>
      -- lines 82-86: age check; `Date.now() - timestamp < CONFIG.cacheDuration`
      if now - ts < cacheDuration then ⟨.resolved e.data ts, false, false⟩
      else fetchPath
    | none =>
      -- `Date.now() - undefined` is NaN and `NaN < cacheDuration` is false
      fetchPath

/-! ## Relative-time formatter

Embedding of `timeAgo` (src/nextava-widget.js lines 117-150).  The
platform call `new Date(timestampString)` is a parameter `parse`:
`invalid` models an invalid date (`isNaN(lastUpdated.getTime())`),
`throws` an exception raised while parsing (caught by the try/catch),
`ok ms` a valid instant in milliseconds since the epoch.  `now` stands
for the current instant used by both the future check and the day
count.
-/

inductive DateOutcome where
  | invalid
  | throws
  | ok (ms : Int)
deriving DecidableEq, Repr

/-- Milliseconds per day, 1000 * 60 * 60 * 24 (line 135). -/
def msPerDay : Int := 1000 * 60 * 60 * 24

def timeAgo (parse : String → DateOutcome) (now : Int) (timestampString : String) :
    Option String :=
  -- line 118: `!timestampString || timestampString.trim() === ''`
  if jsTrim timestampString = "" then none
  else
    match parse timestampString with
    | .throws => none          -- lines 147-149: catch → null
    | .invalid => none         -- lines 126-128
    | .ok t =>
      if now < t then some "recently"   -- lines 131-133: future instant
      else
        -- line 135: Math.floor of a nonnegative quotient is integer division
        let daysSince : Int := (now - t) / msPerDay
        if daysSince = 0 then some "today"
        else if daysSince = 1 then some "yesterday"
        else if daysSince < 7 then some (toString daysSince ++ " days ago")
        else
          let weeksSince : Int := daysSince / 7
          if weeksSince = 1 then some "1 week ago"
          else if weeksSince = 2 then some "2 weeks ago"
          else if 3 ≤ weeksSince then some "3+ weeks ago"
          else some (toString daysSince ++ " days ago")

/-! ## Record resolver

Embedding of `findClinic` (src/nextava-widget.js lines 153-180).  A JS
object built by `clinic[header] = row[index] || ''` is modelled as an
association list with JavaScript object-assignment semantics: an
existing key keeps its (first-insertion) position and gets the new
value, a new key is appended.  `row[index]` beyond the row's length is
`undefined`, and `undefined || ''` and `'' || ''` are both `''`, hence
`row.getD index ""`.
-/

/-- line 158: `h && h.trim().toLowerCase() === 'clinicid'`
(an empty header cell is falsy). -/
def headerIsClinicId (h : String) : Bool :=
  !(h == "") && (jsToLower (jsTrim h) == "clinicid")

/-- line 169: `row[clinicIdColIndex] && row[clinicIdColIndex].trim() === clinicId`
(a missing cell is `undefined`, an empty cell is falsy). -/
def rowKeyMatches (idx : Nat) (clinicId : String) (row : List String) : Bool :=
  match row.get? idx with
  | some cell => !(cell == "") && (jsTrim cell == clinicId)
  | none => false

/-- JS object property assignment `obj[k] = v` on a string-keyed object:
update in place if the key exists, else append. -/
def jsObjInsert (obj : List (String × String)) (k v : String) :
    List (String × String) :=
  if obj.any (fun p => p.1 = k) then
    obj.map (fun p => if p.1 = k then (k, v) else p)
  else obj ++ [(k, v)]

/-- lines 171-174: `headers.forEach((header, index) => clinic[header] = row[index] || '')`,
with `i` the index of the next header. -/
def buildRecordAux (row : List String) : Nat → List String →
    List (String × String) → List (String × String)
  | _, [], obj => obj
  | i, h :: hs, obj => buildRecordAux row (i + 1) hs (jsObjInsert obj h (row.getD i ""))

def buildRecord (headers row : List String) : List (String × String) :=
  buildRecordAux row 0 headers []

def findClinic (rows : List (List String)) (clinicId : String) :
    Option (List (String × String)) :=
  -- line 154: need a header row and at least one data row
  if rows.length < 2 then none
  else
    let headers := rows.headD []
    match headers.findIdx? headerIsClinicId with
    | none => none                       -- lines 161-164
    | some clinicIdColIndex =>
      -- lines 167-177: first matching data row wins
      match (rows.drop 1).find? (rowKeyMatches clinicIdColIndex clinicId) with
      | none => none
      | some row => some (buildRecord headers row)

/-! ## Serialization used by the round-trip property -/

/-- Modelled from the spec: the repository has no CSV serializer; the
round-trip property of the spec serializes "cells joined by commas".
This joins the cells of one row with `","`. -/
def serializeRow : List String → String
  | [] => ""
  | [cell] => cell
  | cell :: cells => cell ++ "," ++ serializeRow cells

/-- Modelled from the spec: "rows terminated by newlines" — every row
is followed by one `"\n"`. -/
def serializeAsCsv : List (List String) → String
  | [] => ""
  | row :: rows => serializeRow row ++ "\n" ++ serializeAsCsv rows

/-- A cell is plain when it contains no quote, separator or
terminator character (the spec's "non-quoted, comma-free" cells,
sharpened to exclude row terminators). -/
def plainCell (s : String) : Prop :=
  ∀ c ∈ s.data, c ≠ '"' ∧ c ≠ ',' ∧ c ≠ '\n' ∧ c ≠ '\r'

instance (s : String) : Decidable (plainCell s) :=
  inferInstanceAs (Decidable (∀ c ∈ s.data, _ ∧ _ ∧ _ ∧ _))

end NextavaWidget

namespace NextavaWidget

/-! ## Step equations of the tokenizer -/

theorem csvAux_nil (q : Bool) (f : String) (l : List String) (ls : List (List String)) :
    parseCSVAux [] q f l ls = if f ≠ "" ∨ l ≠ [] then ls ++ [l ++ [f]] else ls := by
  cases q <;> rfl

theorem csvAux_plain (c : Char) (cs : List Char) (q : Bool) (f : String)
    (l : List String) (ls : List (List String))
    (h1 : c ≠ '"') (h2 : c ≠ ',') (h3 : c ≠ '\n') (h4 : c ≠ '\r') :
    parseCSVAux (c :: cs) q f l ls = parseCSVAux cs q (f.push c) l ls := by
  cases q <;> cases cs <;>
    · rw [parseCSVAux.eq_def]
      simp [h1, h2, h3, h4]

theorem csvAux_comma (cs : List Char) (f : String) (l : List String)
    (ls : List (List String)) :
    parseCSVAux (',' :: cs) false f l ls = parseCSVAux cs false "" (l ++ [f]) ls := by
  cases cs <;> rfl

theorem csvAux_comma_quoted (cs : List Char) (f : String) (l : List String)
    (ls : List (List String)) :
    parseCSVAux (',' :: cs) true f l ls = parseCSVAux cs true (f.push ',') l ls := by
  cases cs <;> rfl

theorem csvAux_lf (cs : List Char) (f : String) (l : List String)
    (ls : List (List String)) :
    parseCSVAux ('\n' :: cs) false f l ls =
      if f ≠ "" ∨ l ≠ [] then parseCSVAux cs false "" [] (ls ++ [l ++ [f]])
      else parseCSVAux cs false "" [] ls := by
  cases cs <;> rfl

theorem csvAux_crlf (cs : List Char) (f : String) (l : List String)
    (ls : List (List String)) :
    parseCSVAux ('\r' :: '\n' :: cs) false f l ls =
      if f ≠ "" ∨ l ≠ [] then parseCSVAux cs false "" [] (ls ++ [l ++ [f]])
      else parseCSVAux cs false "" [] ls := rfl

theorem csvAux_cr (c : Char) (cs : List Char) (f : String) (l : List String)
    (ls : List (List String)) (h : c ≠ '\n') :
    parseCSVAux ('\r' :: c :: cs) false f l ls =
      if f ≠ "" ∨ l ≠ [] then parseCSVAux (c :: cs) false "" [] (ls ++ [l ++ [f]])
      else parseCSVAux (c :: cs) false "" [] ls := by
  rw [parseCSVAux.eq_def]
  simp [h]

theorem csvAux_cr_last (f : String) (l : List String) (ls : List (List String)) :
    parseCSVAux ['\r'] false f l ls =
      if f ≠ "" ∨ l ≠ [] then parseCSVAux [] false "" [] (ls ++ [l ++ [f]])
      else parseCSVAux [] false "" [] ls := rfl

theorem csvAux_lf_quoted (cs : List Char) (f : String) (l : List String)
    (ls : List (List String)) :
    parseCSVAux ('\n' :: cs) true f l ls = parseCSVAux cs true (f.push '\n') l ls := by
  cases cs <;> rfl

theorem csvAux_cr_quoted (cs : List Char) (f : String) (l : List String)
    (ls : List (List String)) :
    parseCSVAux ('\r' :: cs) true f l ls = parseCSVAux cs true (f.push '\r') l ls := by
  cases cs with
  | nil => rfl
  | cons c cs => cases hc : c == '\n' <;> rw [parseCSVAux.eq_def] <;> simp_all

theorem csvAux_quote_escaped (cs : List Char) (f : String) (l : List String)
    (ls : List (List String)) :
    parseCSVAux ('"' :: '"' :: cs) true f l ls =
      parseCSVAux cs true (f.push '"') l ls := rfl

theorem csvAux_quote_open (cs : List Char) (f : String) (l : List String)
    (ls : List (List String)) :
    parseCSVAux ('"' :: cs) false f l ls = parseCSVAux cs true f l ls := by
  cases cs with
  | nil => rfl
  | cons c cs => cases hc : c == '"' <;> rw [parseCSVAux.eq_def] <;> simp_all

theorem csvAux_quote_close (c : Char) (cs : List Char) (f : String) (l : List String)
    (ls : List (List String)) (h : c ≠ '"') :
    parseCSVAux ('"' :: c :: cs) true f l ls = parseCSVAux (c :: cs) false f l ls := by
  rw [parseCSVAux.eq_def]
  simp [h]

theorem csvAux_quote_close_last (f : String) (l : List String)
    (ls : List (List String)) :
    parseCSVAux ['"'] true f l ls = parseCSVAux [] false f l ls := rfl

/-! ## Round-trip machinery -/

theorem data_push (s : String) (c : Char) : (s.push c).data = s.data ++ [c] := rfl

theorem data_append (s t : String) : (s ++ t).data = s.data ++ t.data := rfl

theorem string_eta (s : String) : (⟨s.data⟩ : String) = s := rfl

/-- Consuming a run of plain characters appends them to the pending field. -/
theorem csvAux_plain_run (cs : List Char)
    (hcs : ∀ c ∈ cs, c ≠ '"' ∧ c ≠ ',' ∧ c ≠ '\n' ∧ c ≠ '\r')
    (rest : List Char) (f : String) (l : List String) (ls : List (List String)) :
    parseCSVAux (cs ++ rest) false f l ls =
      parseCSVAux rest false ⟨f.data ++ cs⟩ l ls := by
  induction cs generalizing f with
  | nil => simp [string_eta]
  | cons c cs ih =>
    obtain ⟨h1, h2, h3, h4⟩ := hcs c (List.mem_cons_self c cs)
    rw [List.cons_append, csvAux_plain c _ _ _ _ _ h1 h2 h3 h4,
      ih (fun x hx => hcs x (List.mem_cons_of_mem c hx))]
    congr 1
    rw [data_push, List.append_assoc]
    rfl

/-- Consuming one serialized row of plain cells up to its terminating
newline: the row is appended to the accumulated tables, except when
nothing is pending (empty line, single empty cell). -/
theorem csvAux_row (cells : List String) (hne : cells ≠ [])
    (hplain : ∀ s ∈ cells, plainCell s)
    (rest : List Char) (l : List String) (ls : List (List String)) :
    parseCSVAux ((serializeRow cells).data ++ '\n' :: rest) false "" l ls =
      if l = [] ∧ cells = [""] then parseCSVAux rest false "" [] ls
      else parseCSVAux rest false "" [] (ls ++ [l ++ cells]) := by
  induction cells generalizing l with
  | nil => exact absurd rfl hne
  | cons c cs ih =>
    cases cs with
    | nil =>
      have hp := hplain c (List.mem_cons_self c [])
      rw [show serializeRow [c] = c from rfl,
        csvAux_plain_run c.data hp ('\n' :: rest) "" l ls]
      rw [show (⟨("" : String).data ++ c.data⟩ : String) = c from rfl, csvAux_lf]
      by_cases hc : c = ""
      · by_cases hl : l = []
        · simp [hc, hl]
        · simp [hc, hl]
      · have : ¬(l = [] ∧ [c] = [""]) := by
          rintro ⟨-, h⟩
          exact hc (List.cons_eq_cons.mp h).1
        simp [hc, this]
    | cons c2 cs2 =>
      have hp := hplain c (List.mem_cons_self c (c2 :: cs2))
      have hdata : (serializeRow (c :: c2 :: cs2)).data ++ '\n' :: rest =
          c.data ++ (',' :: ((serializeRow (c2 :: cs2)).data ++ '\n' :: rest)) := by
        rw [show serializeRow (c :: c2 :: cs2) = c ++ "," ++ serializeRow (c2 :: cs2)
            from rfl]
        simp only [data_append, List.append_assoc]
        rfl
      rw [hdata, csvAux_plain_run c.data hp _ "" l ls,
        show (⟨("" : String).data ++ c.data⟩ : String) = c from rfl, csvAux_comma,
        ih (by simp) (fun s hs => hplain s (List.mem_cons_of_mem c hs)) (l ++ [c])]
      have hcons : ¬(l ++ [c] = []) := by simp
      have hcells : ¬(l = [] ∧ c :: c2 :: cs2 = [""]) := by
        rintro ⟨-, h⟩
        simp at h
      simp [hcons, hcells, List.append_assoc]

/-- Parsing the serialization of well-behaved rows recovers the rows. -/
theorem csvAux_roundTrip (rows : List (List String))
    (h : ∀ r ∈ rows, r ≠ [] ∧ r ≠ [""] ∧ ∀ s ∈ r, plainCell s)
    (ls : List (List String)) :
    parseCSVAux (serializeAsCsv rows).data false "" [] ls = ls ++ rows := by
  induction rows generalizing ls with
  | nil => simp [serializeAsCsv, csvAux_nil]
  | cons r rows ih =>
    obtain ⟨hne, hnsq, hplain⟩ := h r (List.mem_cons_self r rows)
    have hdata : (serializeAsCsv (r :: rows)).data =
        (serializeRow r).data ++ '\n' :: (serializeAsCsv rows).data := by
      rw [show serializeAsCsv (r :: rows) = serializeRow r ++ "\n" ++ serializeAsCsv rows
          from rfl]
      simp only [data_append, List.append_assoc]
      rfl
    rw [hdata, csvAux_row r hne hplain]
    have : ¬([] = ([] : List String) ∧ r = [""]) := fun hx => hnsq hx.2
    rw [if_neg this, ih (fun x hx => h x (List.mem_cons_of_mem r hx))]
    simp

/-! ## Association-list lemmas for the JS-object model -/

theorem lookup_cons_fst_eq (k v : String) (l : List (String × String)) :
    List.lookup k ((k, v) :: l) = some v := by
  simp [List.lookup_cons]

theorem lookup_cons_fst_ne (k : String) (p : String × String)
    (l : List (String × String)) (h : k ≠ p.1) :
    List.lookup k (p :: l) = List.lookup k l := by
  obtain ⟨a, b⟩ := p
  have hb : (k == a) = false := by simpa using h
  simp [List.lookup_cons, hb]

theorem lookup_map_update (obj : List (String × String)) (k v : String)
    (h : ∃ p ∈ obj, p.1 = k) :
    List.lookup k (obj.map (fun p => if p.1 = k then (k, v) else p)) = some v := by
  induction obj with
  | nil => simp at h
  | cons p obj ih =>
    by_cases hp : p.1 = k
    · simp only [List.map_cons, if_pos hp]
      exact lookup_cons_fst_eq k v _
    · have hmem : ∃ q ∈ obj, q.1 = k := by
        rcases h with ⟨q, hq, hq1⟩
        rcases List.mem_cons.mp hq with rfl | hq'
        · exact absurd hq1 hp
        · exact ⟨q, hq', hq1⟩
      rw [List.map_cons, if_neg hp,
        lookup_cons_fst_ne k p _ (fun hk => hp hk.symm)]
      exact ih hmem

theorem lookup_map_update_ne (obj : List (String × String)) (k v k' : String)
    (h : k' ≠ k) :
    List.lookup k' (obj.map (fun p => if p.1 = k then (k, v) else p)) =
      List.lookup k' obj := by
  induction obj with
  | nil => rfl
  | cons p obj ih =>
    by_cases hp : p.1 = k
    · rw [List.map_cons, if_pos hp, lookup_cons_fst_ne k' (k, v) _ h,
        lookup_cons_fst_ne k' p _ (hp ▸ h), ih]
    · by_cases hk' : k' = p.1
      · obtain ⟨a, b⟩ := p
        subst hk'
        simp [List.map_cons, if_neg hp, lookup_cons_fst_eq]
      · rw [List.map_cons, if_neg hp, lookup_cons_fst_ne k' p _ hk',
          lookup_cons_fst_ne k' p _ hk', ih]

theorem lookup_append_new (obj : List (String × String)) (k v : String)
    (h : ∀ p ∈ obj, p.1 ≠ k) :
    List.lookup k (obj ++ [(k, v)]) = some v := by
  induction obj with
  | nil => exact lookup_cons_fst_eq k v []
  | cons p obj ih =>
    rw [List.cons_append,
      lookup_cons_fst_ne k p _ (fun hk => h p (List.mem_cons_self p obj) hk.symm)]
    exact ih (fun q hq => h q (List.mem_cons_of_mem p hq))

theorem lookup_append_single_ne (obj : List (String × String)) (k v k' : String)
    (h : k' ≠ k) :
    List.lookup k' (obj ++ [(k, v)]) = List.lookup k' obj := by
  induction obj with
  | nil => simpa using lookup_cons_fst_ne k' (k, v) [] h
  | cons p obj ih =>
    by_cases hk' : k' = p.1
    · obtain ⟨a, b⟩ := p
      subst hk'
      simp [List.cons_append, lookup_cons_fst_eq]
    · rw [List.cons_append, lookup_cons_fst_ne k' p _ hk',
        lookup_cons_fst_ne k' p _ hk', ih]

theorem any_fst_eq_mem (obj : List (String × String)) (k : String) :
    (obj.any fun p => p.1 = k) = true ↔ k ∈ obj.map Prod.fst := by
  simp [List.any_eq_true, List.mem_map]

theorem lookup_jsObjInsert_self (obj : List (String × String)) (k v : String) :
    List.lookup k (jsObjInsert obj k v) = some v := by
  unfold jsObjInsert
  by_cases h : (obj.any fun p => p.1 = k) = true
  · rw [if_pos h]
    rcases (any_fst_eq_mem obj k).mp h with hmem
    rcases List.mem_map.mp hmem with ⟨p, hp, h1⟩
    exact lookup_map_update obj k v ⟨p, hp, h1⟩
  · rw [if_neg h]
    apply lookup_append_new
    intro p hp h1
    exact h ((any_fst_eq_mem obj k).mpr (List.mem_map.mpr ⟨p, hp, h1⟩))

theorem lookup_jsObjInsert_ne (obj : List (String × String)) (k v k' : String)
    (h : k' ≠ k) :
    List.lookup k' (jsObjInsert obj k v) = List.lookup k' obj := by
  unfold jsObjInsert
  by_cases hany : (obj.any fun p => p.1 = k) = true
  · rw [if_pos hany, lookup_map_update_ne obj k v k' h]
  · rw [if_neg hany, lookup_append_single_ne obj k v k' h]

theorem keys_jsObjInsert (obj : List (String × String)) (k v : String) :
    (jsObjInsert obj k v).map Prod.fst =
      if k ∈ obj.map Prod.fst then obj.map Prod.fst
      else obj.map Prod.fst ++ [k] := by
  unfold jsObjInsert
  have hmap : (obj.map (fun p => if p.1 = k then (k, v) else p)).map Prod.fst =
      obj.map Prod.fst := by
    rw [List.map_map]
    apply List.map_congr_left
    intro p _
    by_cases hp : p.1 = k
    · simp [hp]
    · simp [hp]
  by_cases h : (obj.any fun p => p.1 = k) = true
  · rw [if_pos h, hmap, if_pos ((any_fst_eq_mem obj k).mp h)]
  · rw [if_neg h, if_neg (fun hm => h ((any_fst_eq_mem obj k).mpr hm)),
      List.map_append]
    rfl

/-! ## Record construction lemmas -/

theorem buildRecordAux_lookup_notMem (row : List String) (name : String)
    (hs : List String) (h : name ∉ hs) :
    ∀ (i : Nat) (obj : List (String × String)),
      List.lookup name (buildRecordAux row i hs obj) = List.lookup name obj := by
  induction hs with
  | nil => intro i obj; rfl
  | cons x hs ih =>
    intro i obj
    have hx : name ≠ x := fun he => h (he ▸ List.mem_cons_self x hs)
    rw [show buildRecordAux row i (x :: hs) obj =
        buildRecordAux row (i + 1) hs (jsObjInsert obj x (row.getD i "")) from rfl,
      ih (fun hm => h (List.mem_cons_of_mem x hm)),
      lookup_jsObjInsert_ne obj x _ name hx]

theorem buildRecordAux_lookup_last (row : List String) (name : String)
    (pre suf : List String) (h : name ∉ suf) :
    ∀ (i : Nat) (obj : List (String × String)),
      List.lookup name (buildRecordAux row i (pre ++ name :: suf) obj) =
        some (row.getD (i + pre.length) "") := by
  induction pre with
  | nil =>
    intro i obj
    rw [List.nil_append,
      show buildRecordAux row i (name :: suf) obj =
        buildRecordAux row (i + 1) suf (jsObjInsert obj name (row.getD i "")) from rfl,
      buildRecordAux_lookup_notMem row name suf h,
      lookup_jsObjInsert_self]
    simp
  | cons x pre ih =>
    intro i obj
    rw [List.cons_append,
      show buildRecordAux row i (x :: (pre ++ name :: suf)) obj =
        buildRecordAux row (i + 1) (pre ++ name :: suf)
          (jsObjInsert obj x (row.getD i "")) from rfl,
      ih i.succ (jsObjInsert obj x (row.getD i ""))]
    congr 2
    simp [Nat.succ_add]
    omega

theorem buildRecordAux_keys (row : List String) (hs : List String) :
    ∀ (i : Nat) (obj : List (String × String)),
      ((obj.map Prod.fst).Nodup →
        ((buildRecordAux row i hs obj).map Prod.fst).Nodup) ∧
      (∀ n, n ∈ (buildRecordAux row i hs obj).map Prod.fst ↔
        n ∈ obj.map Prod.fst ∨ n ∈ hs) := by
  induction hs with
  | nil => intro i obj; simp [buildRecordAux]
  | cons x hs ih =>
    intro i obj
    have step : buildRecordAux row i (x :: hs) obj =
        buildRecordAux row (i + 1) hs (jsObjInsert obj x (row.getD i "")) := rfl
    constructor
    · intro hnd
      rw [step]
      apply (ih (i + 1) (jsObjInsert obj x (row.getD i ""))).1
      rw [keys_jsObjInsert]
      by_cases hx : x ∈ obj.map Prod.fst
      · rw [if_pos hx]; exact hnd
      · rw [if_neg hx]
        simp [List.nodup_append, hnd, hx, List.disjoint_singleton]
    · intro n
      rw [step, (ih (i + 1) (jsObjInsert obj x (row.getD i ""))).2 n,
        keys_jsObjInsert]
      by_cases hx : x ∈ obj.map Prod.fst
      · rw [if_pos hx]
        constructor
        · rintro (hn | hn)
          · exact Or.inl hn
          · exact Or.inr (List.mem_cons_of_mem x hn)
        · rintro (hn | hn)
          · exact Or.inl hn
          · rcases List.mem_cons.mp hn with rfl | hn'
            · exact Or.inl hx
            · exact Or.inr hn'
      · rw [if_neg hx]
        simp [List.mem_append, List.mem_cons]
        tauto

/-! ## Resolver lemmas -/

/-- The header predicate holds exactly when the trimmed, lowercased
cell is "clinicid"; the truthiness guard on the cell is redundant for
the header (an empty cell cannot lowercase-trim to "clinicid"). -/
theorem headerIsClinicId_iff (h : String) :
    headerIsClinicId h = true ↔ jsToLower (jsTrim h) = "clinicid" := by
  by_cases he : h = ""
  · subst he; decide
  · simp [headerIsClinicId, he]

theorem find?_first (p : List String → Bool) (rs1 rs2 : List (List String))
    (row : List String) (h1 : ∀ r ∈ rs1, p r = false) (h2 : p row = true) :
    (rs1 ++ row :: rs2).find? p = some row := by
  induction rs1 with
  | nil => simpa using List.find?_cons_of_pos rs2 h2
  | cons x rs1 ih =>
    rw [List.cons_append, List.find?_cons_of_neg]
    · exact ih (fun r hr => h1 r (List.mem_cons_of_mem x hr))
    · simp [h1 x (List.mem_cons_self x rs1)]

/-! ## Time formatter lemma -/

/-- With a valid, non-future instant the formatter reduces to the
day-count classification. -/
theorem timeAgo_ok (parse : String → DateOutcome) (now t : Int) (s : String)
    (h1 : jsTrim s ≠ "") (h2 : parse s = .ok t) (h3 : ¬now < t) :
    timeAgo parse now s =
      (if (now - t) / msPerDay = 0 then some "today"
      else if (now - t) / msPerDay = 1 then some "yesterday"
      else if (now - t) / msPerDay < 7 then
        some (toString ((now - t) / msPerDay) ++ " days ago")
      else if (now - t) / msPerDay / 7 = 1 then some "1 week ago"
      else if (now - t) / msPerDay / 7 = 2 then some "2 weeks ago"
      else if 3 ≤ (now - t) / msPerDay / 7 then some "3+ weeks ago"
      else some (toString ((now - t) / msPerDay) ++ " days ago")) := by
  unfold timeAgo
  rw [if_neg h1, h2]
  simp only [if_neg h3]

end NextavaWidget

namespace NextavaWidget

/-! ## Claim theorems -/

/-- C1: the claim states that a persisted envelope that fails to
deserialize is treated exactly like a cache miss — fetch proceeds and
the failure is never surfaced.  The code does the opposite: the
`JSON.parse` call (and the destructuring of a non-object result) is
not guarded, the exception rejects the promise returned by `getData`,
no fetch happens, and the error surfaces to the caller.  This theorem
evaluates the embedding on such blobs, exhibiting the divergence. -/
theorem getData_malformed_blob_rejects (now : Int)
    (fetchResult : Except Unit String) (storeWriteOk : Bool) :
    getData .malformed now fetchResult storeWriteOk =
      ⟨.rejected .jsonSyntaxError, false, false⟩ ∧
    getData .notObject now fetchResult storeWriteOk =
      ⟨.rejected .destructureTypeError, false, false⟩ :=
  ⟨rfl, rfl⟩

/-- C2: with a well-formed envelope, `getData` returns its data and
stored timestamp without fetching exactly when the age is strictly
below the 5-minute (300000 ms) TTL; at age 5 minutes or more it
fetches. -/
theorem getData_ttl_boundary (tbl : List (List String)) (ts now : Int)
    (fetchResult : Except Unit String) (storeWriteOk : Bool) :
    cacheDuration = 300000 ∧
    (now - ts < 300000 →
      getData (.envelope ⟨some tbl, some ts⟩) now fetchResult storeWriteOk =
        ⟨.resolved (some tbl) ts, false, false⟩) ∧
    (300000 ≤ now - ts →
      (getData (.envelope ⟨some tbl, some ts⟩) now fetchResult storeWriteOk).didFetch
        = true) := by
  refine ⟨rfl, ?_, ?_⟩
  · intro h
    have hlt : now - ts < cacheDuration := by unfold cacheDuration; omega
    simp [getData, hlt]
  · intro h
    have hnlt : ¬now - ts < cacheDuration := by unfold cacheDuration; omega
    cases fetchResult <;> simp [getData, hnlt]

theorem getData_ttl_boundary_witness :
    getData (.envelope ⟨some [["h"], ["r"]], some 1000⟩) 300999 (.error ()) true =
      ⟨.resolved (some [["h"], ["r"]]) 1000, false, false⟩ ∧
    (getData (.envelope ⟨some [["h"], ["r"]], some 1000⟩) 301000 (.error ()) true).didFetch
      = true := by
  have h := getData_ttl_boundary [["h"], ["r"]] 1000 300999 (.error ()) true
  have h2 := getData_ttl_boundary [["h"], ["r"]] 1000 301000 (.error ()) true
  exact ⟨h.2.1 (by decide), h2.2.2 (by decide)⟩

/-- C3: whenever the fetch path runs and the fetch succeeds, `getData`
resolves with the freshly parsed table and the new timestamp, whether
or not the store write succeeds; the write failure only means the
cache is not updated. -/
theorem getData_best_effort_write (store : StoreRead) (now : Int) (csvText : String) :
    ((getData store now (.ok csvText) false).didFetch = true →
      (getData store now (.ok csvText) false).outcome =
        .resolved (some (parseCSV csvText)) now ∧
      (getData store now (.ok csvText) false).cacheWritten = false) ∧
    (getData store now (.ok csvText) false).outcome =
      (getData store now (.ok csvText) true).outcome := by
  cases store with
  | absent => simp [getData]
  | malformed => simp [getData]
  | notObject => simp [getData]
  | envelope e =>
    obtain ⟨d, tso⟩ := e
    cases tso with
    | none => simp [getData]
    | some ts =>
      by_cases hlt : now - ts < cacheDuration
      · simp [getData, hlt]
      · simp [getData, hlt]

theorem getData_best_effort_write_witness :
    (getData .absent 42 (.ok "a,b\nc,d") false).outcome =
      .resolved (some [["a", "b"], ["c", "d"]]) 42 := by
  have h := (getData_best_effort_write .absent 42 "a,b\nc,d").1 (by decide)
  rw [h.1]
  decide

/-- C7: the relative-time formatter returns `none` for blank or
unparseable input and for parse exceptions, "recently" for instants
strictly in the future, and otherwise classifies the floor of elapsed
milliseconds over milliseconds-per-day: 0 → "today", 1 → "yesterday",
2–6 → "(d) days ago", 7–13 → "1 week ago", 14–20 → "2 weeks ago",
21 and up → the literal "3+ weeks ago". -/
theorem timeAgo_classification (parse : String → DateOutcome) (now t : Int)
    (s : String) :
    (jsTrim s = "" → timeAgo parse now s = none) ∧
    (parse s = .invalid → timeAgo parse now s = none) ∧
    (parse s = .throws → timeAgo parse now s = none) ∧
    (jsTrim s ≠ "" → parse s = .ok t → now < t →
      timeAgo parse now s = some "recently") ∧
    (jsTrim s ≠ "" → parse s = .ok t → t ≤ now →
      (((now - t) / msPerDay = 0 → timeAgo parse now s = some "today") ∧
      ((now - t) / msPerDay = 1 → timeAgo parse now s = some "yesterday") ∧
      (2 ≤ (now - t) / msPerDay → (now - t) / msPerDay ≤ 6 →
        timeAgo parse now s = some (toString ((now - t) / msPerDay) ++ " days ago")) ∧
      (7 ≤ (now - t) / msPerDay → (now - t) / msPerDay ≤ 13 →
        timeAgo parse now s = some "1 week ago") ∧
      (14 ≤ (now - t) / msPerDay → (now - t) / msPerDay ≤ 20 →
        timeAgo parse now s = some "2 weeks ago") ∧
      (21 ≤ (now - t) / msPerDay → timeAgo parse now s = some "3+ weeks ago"))) := by
  refine ⟨?_, ?_, ?_, ?_, ?_⟩
  · intro h
    simp [timeAgo, h]
  · intro h
    by_cases ht : jsTrim s = ""
    · simp [timeAgo, ht]
    · simp [timeAgo, ht, h]
  · intro h
    by_cases ht : jsTrim s = ""
    · simp [timeAgo, ht]
    · simp [timeAgo, ht, h]
  · intro h1 h2 h3
    unfold timeAgo
    rw [if_neg h1, h2]
    simp [h3]
  · intro h1 h2 h3
    have h3' : ¬now < t := by omega
    rw [timeAgo_ok parse now t s h1 h2 h3']
    refine ⟨?_, ?_, ?_, ?_, ?_, ?_⟩
    · intro hd
      rw [if_pos hd]
    · intro hd
      rw [if_neg (by omega), if_pos hd]
    · intro hd1 hd2
      rw [if_neg (by omega), if_neg (by omega), if_pos (by omega)]
    · intro hd1 hd2
      rw [if_neg (by omega), if_neg (by omega), if_neg (by omega), if_pos (by omega)]
    · intro hd1 hd2
      rw [if_neg (by omega), if_neg (by omega), if_neg (by omega), if_neg (by omega),
        if_pos (by omega)]
    · intro hd
      rw [if_neg (by omega), if_neg (by omega), if_neg (by omega), if_neg (by omega),
        if_neg (by omega), if_pos (by omega)]

theorem timeAgo_classification_witness :
    timeAgo (fun _ => .ok 0) (3 * msPerDay) "x" = some "3 days ago" ∧
    timeAgo (fun _ => .ok 0) (13 * msPerDay) "x" = some "1 week ago" := by
  constructor
  · have h := ((timeAgo_classification (fun _ => DateOutcome.ok 0) (3 * msPerDay) 0
      "x").2.2.2.2 (by decide) rfl (by decide)).2.2.1 (by decide) (by decide)
    rw [h]
    decide
  · exact ((timeAgo_classification (fun _ => DateOutcome.ok 0) (13 * msPerDay) 0
      "x").2.2.2.2 (by decide) rfl (by decide)).2.2.2.1 (by decide) (by decide)

/-- C4 counterexample: the claim as stated demands that a data row
whose key cell, after trimming, equals the key value is returned.  For
the empty key value and the row whose key cell is the empty string the
trimmed cell equals the key value, yet the resolver returns NotFound
(the source additionally requires the cell to be truthy, i.e.
non-empty). -/
theorem findClinic_empty_key_counterexample :
    jsTrim "" = "" ∧ findClinic [["clinicid"], [""]] "" = none := by decide

/-- C4 (amended): resolution returns NotFound for tables with fewer
than two rows or without a header cell that trim-lowercases to the key
column name; otherwise it scans data rows in order and returns, as the
header-zipped record, the first row whose key cell is present,
non-empty, and trim-equal to the key value (first match wins), and
NotFound when no row matches. -/
theorem findClinic_resolution (rows : List (List String)) (v : String) :
    (rows.length < 2 → findClinic rows v = none) ∧
    ((∀ h ∈ rows.headD [], jsToLower (jsTrim h) ≠ "clinicid") →
      findClinic rows v = none) ∧
    (∀ idx, (rows.headD []).findIdx? headerIsClinicId = some idx →
      ((∀ r ∈ rows.drop 1, rowKeyMatches idx v r = false) →
        findClinic rows v = none) ∧
      (∀ rs1 row rs2, rows.drop 1 = rs1 ++ row :: rs2 →
        (∀ r ∈ rs1, rowKeyMatches idx v r = false) →
        rowKeyMatches idx v row = true →
        findClinic rows v = some (buildRecord (rows.headD []) row))) := by
  refine ⟨?_, ?_, ?_⟩
  · intro h
    unfold findClinic
    rw [if_pos h]
  · intro hall
    by_cases hlen : rows.length < 2
    · unfold findClinic
      rw [if_pos hlen]
    · have hnone : (rows.headD []).findIdx? headerIsClinicId = none := by
        rw [List.findIdx?_eq_none_iff]
        intro x hx
        cases hbx : headerIsClinicId x with
        | false => rfl
        | true => exact absurd ((headerIsClinicId_iff x).mp hbx) (hall x hx)
      unfold findClinic
      rw [if_neg hlen]
      simp only [hnone]
  · intro idx hidx
    constructor
    · intro hnomatch
      by_cases hlen : rows.length < 2
      · unfold findClinic
        rw [if_pos hlen]
      · have hfind : (rows.drop 1).find? (rowKeyMatches idx v) = none :=
          List.find?_eq_none.mpr (fun x hx => by simp [hnomatch x hx])
        unfold findClinic
        rw [if_neg hlen]
        simp only [hidx, hfind]
    · intro rs1 row rs2 hdrop hskip hmatch
      have hlen : ¬rows.length < 2 := by
        have := congrArg List.length hdrop
        simp [List.length_drop] at this
        omega
      have hfind : (rows.drop 1).find? (rowKeyMatches idx v) = some row := by
        rw [hdrop]
        exact find?_first (rowKeyMatches idx v) rs1 rs2 row hskip hmatch
      unfold findClinic
      rw [if_neg hlen]
      simp only [hidx, hfind]

theorem findClinic_resolution_witness :
    findClinic [["Name", " ClinicID "], ["a", "k1"], ["b", "k1"]] "k1" =
      some [("Name", "a"), (" ClinicID ", "k1")] := by
  have h := ((findClinic_resolution [["Name", " ClinicID "], ["a", "k1"], ["b", "k1"]]
    "k1").2.2 1 (by decide)).2 [] ["a", "k1"] [["b", "k1"]] rfl (by decide)
    (by decide)
  rw [h]
  decide

/-- C9: a data row whose key cell is absent or exactly the empty
string never matches (the source requires the cell to be truthy before
trimming), even when the key value is the empty string; a key cell of
non-empty whitespace trims to the empty string and therefore does
match the empty key value. -/
theorem findClinic_empty_cell_never_matches :
    (∀ (idx : Nat) (v : String) (row : List String),
      row.getD idx "" = "" → rowKeyMatches idx v row = false) ∧
    findClinic [["clinicid"], ["x", "y"], [""]] "" = none ∧
    findClinic [["clinicid"], [" ", "z"]] "" = some [("clinicid", " ")] := by
  refine ⟨?_, by decide, by decide⟩
  intro idx v row h
  rw [List.getD_eq_getD_get?] at h
  unfold rowKeyMatches
  cases hg : row.get? idx with
  | none => rfl
  | some cell =>
    rw [hg] at h
    simp only [Option.getD_some] at h
    subst h
    simp

theorem findClinic_empty_cell_never_matches_witness :
    rowKeyMatches 0 "anything" [""] = false ∧ rowKeyMatches 3 "" ["a"] = false := by
  exact ⟨findClinic_empty_cell_never_matches.1 0 "anything" [""] (by decide),
    findClinic_empty_cell_never_matches.1 3 "" ["a"] (by decide)⟩

/-- C10: when a header name occurs at several column indices, the
record built by the resolver maps that name to the matched row's cell
at the last such index (later assignments overwrite earlier ones), the
record's keys are duplicate-free — one entry per distinct header
name — and every record the resolver returns is built this way from
the header row and a data row. -/
theorem buildRecord_duplicate_headers (row : List String) (name : String)
    (pre suf : List String) (h : name ∉ suf) :
    List.lookup name (buildRecord (pre ++ name :: suf) row) =
      some (row.getD pre.length "") ∧
    ((buildRecord (pre ++ name :: suf) row).map Prod.fst).Nodup ∧
    (∀ n, n ∈ (buildRecord (pre ++ name :: suf) row).map Prod.fst ↔
      n ∈ pre ++ name :: suf) ∧
    (∀ (rows : List (List String)) (v : String) (rec : List (String × String)),
      findClinic rows v = some rec →
      ∃ r ∈ rows.drop 1, rec = buildRecord (rows.headD []) r) := by
  refine ⟨?_, ?_, ?_, ?_⟩
  · have hl := buildRecordAux_lookup_last row name pre suf h 0 []
    simpa [buildRecord] using hl
  · exact (buildRecordAux_keys row (pre ++ name :: suf) 0 []).1 (by simp)
  · intro n
    have hk := (buildRecordAux_keys row (pre ++ name :: suf) 0 []).2 n
    simpa [buildRecord] using hk
  · intro rows v rec hres
    unfold findClinic at hres
    by_cases hlen : rows.length < 2
    · rw [if_pos hlen] at hres
      exact absurd hres (by simp)
    · rw [if_neg hlen] at hres
      cases hidx : (rows.headD []).findIdx? headerIsClinicId with
      | none => simp only [hidx] at hres; exact absurd hres (by simp)
      | some idx =>
        cases hfind : (rows.drop 1).find? (rowKeyMatches idx v) with
        | none => simp only [hidx, hfind] at hres; exact absurd hres (by simp)
        | some r =>
          simp only [hidx, hfind, Option.some.injEq] at hres
          exact ⟨r, List.mem_of_find?_eq_some hfind, hres.symm⟩

theorem buildRecord_duplicate_headers_witness :
    List.lookup "dup" (buildRecord ["dup", "a", "dup"] ["v0", "v1", "v2"]) =
      some "v2" := by
  have h := (buildRecord_duplicate_headers ["v0", "v1", "v2"] "dup" ["dup", "a"] []
    (by decide)).1
  simpa using h

/-- C5: outside quotes, LF, CRLF (one boundary, no empty trailing
field for the skipped LF) and bare CR all close the current row; a row
is emitted at a boundary or at end-of-input only when a field was
already pushed or the pending field is non-empty, so the final row
without a trailing terminator is captured, a trailing terminator adds
no spurious empty row, and empty input gives zero rows; inside quotes
a terminator is literal field data. -/
theorem parseCSV_row_boundaries :
    parseCSV "" = [] ∧
    (∀ cs f l ls, parseCSVAux ('\n' :: cs) false f l ls =
      if f ≠ "" ∨ l ≠ [] then parseCSVAux cs false "" [] (ls ++ [l ++ [f]])
      else parseCSVAux cs false "" [] ls) ∧
    (∀ cs f l ls, parseCSVAux ('\r' :: '\n' :: cs) false f l ls =
      if f ≠ "" ∨ l ≠ [] then parseCSVAux cs false "" [] (ls ++ [l ++ [f]])
      else parseCSVAux cs false "" [] ls) ∧
    (∀ c cs f l ls, c ≠ '\n' → parseCSVAux ('\r' :: c :: cs) false f l ls =
      if f ≠ "" ∨ l ≠ [] then parseCSVAux (c :: cs) false "" [] (ls ++ [l ++ [f]])
      else parseCSVAux (c :: cs) false "" [] ls) ∧
    (∀ f l ls, parseCSVAux ['\r'] false f l ls =
      if f ≠ "" ∨ l ≠ [] then ls ++ [l ++ [f]] else ls) ∧
    (∀ cs f l ls, parseCSVAux ('\n' :: cs) true f l ls =
      parseCSVAux cs true (f.push '\n') l ls) ∧
    (∀ cs f l ls, parseCSVAux ('\r' :: cs) true f l ls =
      parseCSVAux cs true (f.push '\r') l ls) ∧
    (∀ q f l ls, parseCSVAux [] q f l ls =
      if f ≠ "" ∨ l ≠ [] then ls ++ [l ++ [f]] else ls) ∧
    parseCSV "a,b\r\nc,d\r\n" = [["a", "b"], ["c", "d"]] ∧
    parseCSV "a,b\nc" = [["a", "b"], ["c"]] ∧
    parseCSV "a,b\n" = [["a", "b"]] := by
  refine ⟨by decide, csvAux_lf, csvAux_crlf, ?_, ?_, csvAux_lf_quoted,
    csvAux_cr_quoted, csvAux_nil, by decide, by decide, by decide⟩
  · intro c cs f l ls hc
    exact csvAux_cr c cs f l ls hc
  · intro f l ls
    rw [csvAux_cr_last]
    by_cases h : f ≠ "" ∨ l ≠ []
    · rw [if_pos h, if_pos h, csvAux_nil]
      simp
    · rw [if_neg h, if_neg h, csvAux_nil]
      simp

theorem parseCSV_row_boundaries_witness :
    parseCSVAux ['\r', 'x'] false "a" [] [] = [["a"], ["x"]] := by
  have h := parseCSV_row_boundaries.2.2.2.1 'x' [] "a" [] [] (by decide)
  rw [h]
  decide

/-- C6: a double-quoted field takes commas as literal data and a
doubled double quote yields one literal quote character; in particular
the two serialized examples tokenize to the stated single-row
tables. -/
theorem parseCSV_quoted_fields :
    (∀ cs f l ls, parseCSVAux (',' :: cs) true f l ls =
      parseCSVAux cs true (f.push ',') l ls) ∧
    (∀ cs f l ls, parseCSVAux ('"' :: '"' :: cs) true f l ls =
      parseCSVAux cs true (f.push '"') l ls) ∧
    parseCSV "a,\"b,c\",d\n" = [["a", "b,c", "d"]] ∧
    parseCSV "\"He said \"\"hi\"\"\",2\n" = [["He said \"hi\"", "2"]] :=
  ⟨csvAux_comma_quoted, csvAux_quote_escaped, by decide, by decide⟩

/-- C8 counterexample: the claim quantifies over all tables of
non-quoted, comma-free cells.  The table `[[""]]` has such cells, but
its serialization is the single newline `"\n"`, which tokenizes to
zero rows, not to `[[""]]` — the boundary emits no row because no
field was pushed and the pending field is empty. -/
theorem roundTrip_counterexample :
    plainCell "" ∧ serializeAsCsv [[""]] = "\n" ∧
    parseCSV (serializeAsCsv [[""]]) ≠ [[""]] := by decide

/-- C8 (amended): for every table whose cells contain no quote, comma
or CR/LF characters and whose rows are non-empty and not the single
empty cell, tokenizing the serialization returns the table. -/
theorem roundTrip_amended (table : List (List String))
    (h : ∀ r ∈ table, r ≠ [] ∧ r ≠ [""] ∧ ∀ s ∈ r, plainCell s) :
    parseCSV (serializeAsCsv table) = table := by
  unfold parseCSV
  rw [csvAux_roundTrip table h []]
  rfl

theorem roundTrip_amended_witness :
    parseCSV (serializeAsCsv [["a", "b"], ["", "d"], ["e"]]) =
      [["a", "b"], ["", "d"], ["e"]] :=
  roundTrip_amended [["a", "b"], ["", "d"], ["e"]] (by decide)

end NextavaWidget

